import Mathlib

/-!
Shallow embedding of the baycheck eBay-listing scraper (Go sources
`scraper.go` and `main.go`) and proofs about its specification claims.

Modelling conventions:
* Go `float64` price values are modelled as exact rationals (`ℚ`); every
  numeric literal appearing in the program and the claims is an exact
  decimal, so no rounding behaviour is relevant to the claims.
* Go `int` is modelled as `Int` (no claim depends on 64-bit overflow).
* Go strings are modelled through their character lists; all Go standard
  library string operations used by the program (`TrimPrefix`, `TrimSpace`,
  `ReplaceAll`, `Fields`, `HasPrefix`, `Contains`, `ToLower`) are
  re-implemented below on `List Char`.
* The three regular expressions of `scraper.go` are tiny (`(\d+)T`,
  `(\d+)Std`, `(\d+)\s*Min`, `(\d+)`, `[^0-9.]`); their leftmost-match
  semantics on these patterns reduces to a left-to-right scan for a maximal
  digit run followed by the literal marker (no backtracking can succeed at
  a shorter run because every proper prefix of a digit run is followed by a
  digit, never by the marker's first letter).
* `strconv.ParseFloat` is only ever applied to strings consisting of digits
  and dots (the output of the `[^0-9.]` filter); on that domain Go accepts
  the string iff it contains at least one digit and at most one dot.
* `strconv.Atoi` errors are modelled by `Option`; the program discards the
  error and uses the accompanying value, which is `0` on a syntax error.
-/

namespace BayCheck

/-- Characters accepted by Go `unicode.IsSpace` in the ASCII/Latin-1 range,
used by `strings.TrimSpace` and `strings.Fields`. -/
def isGoSpace (c : Char) : Bool :=
  c == ' ' || c == '\t' || c == '\n' || c == Char.ofNat 11 || c == Char.ofNat 12 ||
    c == '\r' || c == Char.ofNat 133 || c == Char.ofNat 160

/-- Characters matched by the RE2 class `\s` (`[\t\n\f\r ]`). -/
def isRegexSpace (c : Char) : Bool :=
  c == ' ' || c == '\t' || c == '\n' || c == Char.ofNat 12 || c == '\r'

/-- Numeric value of a run of decimal digit characters. -/
def digitsToNat (ds : List Char) : Nat :=
  ds.foldl (fun n c => 10 * n + (c.toNat - 48)) 0

/-- `strconv.Atoi` applied to a regex group that is a nonempty digit run. -/
def atoiDigits (ds : List Char) : Int :=
  (digitsToNat ds : Int)

/-- `strconv.Atoi`: `some` value on success, `none` on a syntax error. -/
def goAtoiOpt (s : String) : Option Int :=
  match s.toList with
  | [] => none
  | '+' :: ds => if ds ≠ [] ∧ ds.all Char.isDigit then some (digitsToNat ds) else none
  | '-' :: ds => if ds ≠ [] ∧ ds.all Char.isDigit then some (-(digitsToNat ds : Int)) else none
  | ds => if ds.all Char.isDigit then some (digitsToNat ds) else none

/-- `strconv.Atoi` as used with its error ignored: the value is `0` on error. -/
def goAtoi (s : String) : Int :=
  (goAtoiOpt s).getD 0

/-- `strings.TrimSpace`. -/
def trimSpace (cs : List Char) : List Char :=
  ((cs.dropWhile isGoSpace).reverse.dropWhile isGoSpace).reverse

/-- `strings.HasPrefix` / `strings.TrimPrefix` prefix test. -/
def goHasPrefix (pre s : String) : Bool :=
  pre.toList.isPrefixOf s.toList

/-- `strings.TrimPrefix`: removes at most one copy of the prefix. -/
def goTrimPrefix (pre s : String) : String :=
  if goHasPrefix pre s then String.mk (s.toList.drop pre.toList.length) else s

/-- `strings.Contains` on character lists. -/
def containsSub : List Char → List Char → Bool
  | _, [] => true
  | [], _ :: _ => false
  | h :: t, n :: ns => (n :: ns).isPrefixOf (h :: t) || containsSub t (n :: ns)

/-- Accumulating worker for `strings.Fields`: splits around runs of
whitespace, dropping empty fields. -/
def wordsAux : List Char → List Char → List (List Char)
  | [], [] => []
  | [], acc => [acc.reverse]
  | c :: rest, acc =>
    if isGoSpace c then
      match acc with
      | [] => wordsAux rest []
      | _ :: _ => acc.reverse :: wordsAux rest []
    else wordsAux rest (c :: acc)

/-- `strings.Fields`. -/
def goFields (s : String) : List String :=
  (wordsAux s.toList []).map String.mk

/-- `strconv.ParseFloat` restricted to its only use site in the program:
strings already filtered to digits and dots by the `[^0-9.]` regex.  Go
accepts such a string iff it has at least one digit and at most one dot;
the value is the exact decimal it denotes. -/
def goParseFloatClean (cs : List Char) : Option ℚ :=
  if cs.count '.' ≤ 1 ∧ cs.all (fun c => c.isDigit || c == '.') ∧ cs.any Char.isDigit then
    some ((digitsToNat (cs.takeWhile (fun c => c != '.')) : ℚ) +
      (digitsToNat ((cs.dropWhile (fun c => c != '.')).drop 1) : ℚ) /
        (10 : ℚ) ^ ((cs.dropWhile (fun c => c != '.')).drop 1).length)
  else none

/-- One attempt of the compact time regexes at a fixed position: a maximal
digit run, optionally (for `(\d+)\s*Min`) a run of `\s` characters, then the
literal marker; yields the captured digit group. -/
def matchAtPos (marker : List Char) (skipSpaces : Bool) (cs : List Char) : Option (List Char) :=
  match cs with
  | [] => none
  | c :: _ =>
    if c.isDigit then
      if marker.isPrefixOf
          (if skipSpaces then (cs.dropWhile Char.isDigit).dropWhile isRegexSpace
           else cs.dropWhile Char.isDigit) then
        some (cs.takeWhile Char.isDigit)
      else none
    else none

/-- `regexp.FindStringSubmatch` for the patterns `(\d+)marker` (and
`(\d+)\s*Min`): leftmost match, returning the digit group. -/
def findCompact (marker : List Char) (skipSpaces : Bool) : List Char → Option (List Char)
  | [] => none
  | c :: rest =>
    match matchAtPos marker skipSpaces (c :: rest) with
    | some ds => some ds
    | none => findCompact marker skipSpaces rest

/-- Leftmost match of `(\d+)`: the first maximal digit run. -/
def findDigitRun : List Char → Option (List Char)
  | [] => none
  | c :: rest =>
    if c.isDigit then some ((c :: rest).takeWhile Char.isDigit) else findDigitRun rest

/-- `ListingType` from `scraper.go`: `All`, `BuyNow`, `Auction`. -/
inductive ListingType where
  | All : ListingType
  | BuyNow : ListingType
  | Auction : ListingType
deriving DecidableEq, BEq, Repr

/-- `TimeRange` from `scraper.go`: days, hours, minutes. -/
structure TimeRange where
  Days : Int
  Hours : Int
  Minutes : Int
deriving DecidableEq, Repr

/-- `Scraper` from `scraper.go`: the filter criteria for one search. -/
structure Scraper where
  MinPrice : ℚ
  MaxPrice : ℚ
  ListingType : ListingType
  MaxTimeLeft : Option TimeRange
deriving DecidableEq, Repr

/-- `Item` from `scraper.go`: one extracted listing. -/
structure Item where
  Title : String
  Price : String
  PriceValue : ℚ
  URL : String
  IsAuction : Bool
  Watchers : Int
  TimeLeft : String
deriving DecidableEq, Repr

/-- The five text fragments plus the bid fragment that `Scrape` reads from
one `.s-item` block of the parsed document. -/
structure Block where
  title : String
  price : String
  url : String
  watchcount : String
  timeLeft : String
  bids : String
deriving DecidableEq, Repr

/-- `NewScraper` from `scraper.go`. -/
def NewScraper : Scraper :=
  { MinPrice := -1, MaxPrice := -1, ListingType := ListingType.All, MaxTimeLeft := none }

/-- `parsePrice` from `scraper.go`: trim the `EUR` prefix and whitespace,
replace every comma by a dot, drop every character that is not a digit or a
dot, then `ParseFloat`; `-1` on parse failure. -/
def parsePrice (priceStr : String) : ℚ :=
  match goParseFloatClean
      (((trimSpace (goTrimPrefix "EUR" priceStr).toList).map
          (fun c => if c = ',' then '.' else c)).filter
        (fun c => c.isDigit || c == '.')) with
  | some price => price
  | none => -1

/-- `cleanTitle` from `scraper.go`. -/
def cleanTitle (title : String) : String :=
  String.mk (trimSpace (goTrimPrefix "Neues Angebot" title).toList)

/-- `isValidItem` from `scraper.go`. -/
def isValidItem (title price url : String) : Bool :=
  if title = "" ∨ price = "" ∨ url = "" then false
  else if containsSub (title.toList.map Char.toLower) "shop on ebay".toList then false
  else if containsSub url.toList "itmmeta".toList then false
  else true

/-- `Scraper.isInPriceRange` from `scraper.go`. -/
def Scraper.isInPriceRange (s : Scraper) (price : ℚ) : Bool :=
  if price < 0 then false
  else if 0 ≤ s.MinPrice ∧ price < s.MinPrice then false
  else if 0 ≤ s.MaxPrice ∧ price > s.MaxPrice then false
  else true

/-- `isAuction` from `scraper.go`: a block is an auction iff its
time-remaining fragment or its bid fragment is nonempty. -/
def blockIsAuction (b : Block) : Bool :=
  !(b.timeLeft == "") || !(b.bids == "")

/-- `Scraper.shouldIncludeItem` from `scraper.go`. -/
def Scraper.shouldIncludeItem (s : Scraper) (item : Item) : Bool :=
  match s.ListingType with
  | ListingType.BuyNow => !item.IsAuction
  | ListingType.Auction => item.IsAuction
  | ListingType.All => true

/-- `parseWatchers` from `scraper.go`: first digit run anywhere, else 0. -/
def parseWatchers (watcherStr : String) : Int :=
  match findDigitRun watcherStr.toList with
  | some ds => atoiDigits ds
  | none => 0

/-- The token scan of `parseTimeLeft`'s fallback branch: walk the
whitespace-separated tokens with their predecessor; a token starting with
`T` (resp. `Std`) at index `> 0` overwrites days (resp. hours) with the
`Atoi` of the preceding token. -/
def fallbackLoop : List String → Option String → Int → Int → Int × Int
  | [], _, d, h => (d, h)
  | p :: rest, none, d, h => fallbackLoop rest (some p) d h
  | p :: rest, some q, d, h =>
    fallbackLoop rest (some p)
      (if goHasPrefix "T" p then goAtoi q else d)
      (if goHasPrefix "Std" p then goAtoi q else h)

/-- `parseTimeLeft` from `scraper.go`: `none` for the empty string; else the
three compact regexes extract days/hours/minutes (0 when unmatched); if all
three extracted values are 0 the whitespace-token fallback recomputes days
and hours; the result is always a `TimeRange`. -/
def parseTimeLeft (timeStr : String) : Option TimeRange :=
  if timeStr = "" then none
  else
    let days : Int :=
      match findCompact ['T'] false timeStr.toList with
      | some ds => atoiDigits ds
      | none => 0
    let hours : Int :=
      match findCompact ['S', 't', 'd'] false timeStr.toList with
      | some ds => atoiDigits ds
      | none => 0
    let mins : Int :=
      match findCompact ['M', 'i', 'n'] true timeStr.toList with
      | some ds => atoiDigits ds
      | none => 0
    if days = 0 ∧ hours = 0 ∧ mins = 0 then
      some ⟨(fallbackLoop (goFields timeStr) none days hours).1,
        (fallbackLoop (goFields timeStr) none days hours).2, mins⟩
    else some ⟨days, hours, mins⟩

/-- `TimeRange.toMinutes` from `scraper.go`. -/
def TimeRange.toMinutes (tr : TimeRange) : Int :=
  tr.Days * 24 * 60 + tr.Hours * 60 + tr.Minutes

/-- `Scraper.isInTimeRange` from `scraper.go`. -/
def Scraper.isInTimeRange (s : Scraper) (timeLeft : Option TimeRange) : Bool :=
  match s.MaxTimeLeft with
  | none => true
  | some m =>
    match timeLeft with
    | none => false
    | some t => decide (t.toMinutes ≤ m.toMinutes)

/-- `Scraper.shouldCheckTime` from `scraper.go` (defined there but never
called by `Scrape`). -/
def Scraper.shouldCheckTime (s : Scraper) : Bool :=
  s.ListingType == ListingType.Auction && s.MaxTimeLeft.isSome

/-- The `Item` that `Scrape` assembles from one block. -/
def mkItem (b : Block) : Item :=
  { Title := cleanTitle b.title
    Price := b.price
    PriceValue := parsePrice b.price
    URL := b.url
    IsAuction := blockIsAuction b
    Watchers := parseWatchers b.watchcount
    TimeLeft := b.timeLeft }

/-- The inclusion condition of `Scrape`: validity, price range, listing
type, and the time-range check, conjoined in source order. -/
def Scraper.admits (s : Scraper) (b : Block) : Bool :=
  isValidItem (cleanTitle b.title) b.price b.url &&
    s.isInPriceRange (parsePrice b.price) &&
    s.shouldIncludeItem (mkItem b) &&
    s.isInTimeRange (parseTimeLeft b.timeLeft)

/-- The pure core of `Scrape`: the items of the admitted blocks, in document
order. -/
def Scraper.scrape (s : Scraper) (blocks : List Block) : List Item :=
  (blocks.filter s.admits).map mkItem

/-- The days value extracted by `parseTimeLeft`'s compact pass. -/
def daysOf (s : String) : Int :=
  match findCompact ['T'] false s.toList with
  | some ds => atoiDigits ds
  | none => 0

/-- The hours value extracted by `parseTimeLeft`'s compact pass. -/
def hoursOf (s : String) : Int :=
  match findCompact ['S', 't', 'd'] false s.toList with
  | some ds => atoiDigits ds
  | none => 0

/-- The minutes value extracted by `parseTimeLeft`'s compact pass. -/
def minsOf (s : String) : Int :=
  match findCompact ['M', 'i', 'n'] true s.toList with
  | some ds => atoiDigits ds
  | none => 0

/-- The days/hours pair produced by `parseTimeLeft`'s fallback token scan,
started from the compact-pass values. -/
def fallbackDH (s : String) : Int × Int :=
  fallbackLoop (goFields s) none (daysOf s) (hoursOf s)

/-- Variant of `parseTimeLeft` following the claim's words: the fallback is
entered if and only if all three compact patterns fail to match (rather
than if and only if all three extracted values are zero). -/
def parseTimeLeftSpec (timeStr : String) : Option TimeRange :=
  if timeStr = "" then none
  else
    if findCompact ['T'] false timeStr.toList = none ∧
        findCompact ['S', 't', 'd'] false timeStr.toList = none ∧
        findCompact ['M', 'i', 'n'] true timeStr.toList = none then
      some ⟨(fallbackDH timeStr).1, (fallbackDH timeStr).2, minsOf timeStr⟩
    else some ⟨daysOf timeStr, hoursOf timeStr, minsOf timeStr⟩

/-- `SearchConfig` from `main.go`, restricted to the field the scheduler
claims depend on (the query identifies the search). -/
structure SearchConfigM where
  Query : String
deriving DecidableEq, Repr

/-- `Config` from `main.go`. -/
structure ConfigM where
  CheckInterval : Int
  Searches : List SearchConfigM
deriving DecidableEq, Repr

/-- The configuration set-up of `main` from `main.go`, as a function of its
interactive inputs: the loaded configuration (if `loadConfig` succeeded),
the 1/2/3 choice, the searches the user is prompted for when none exist,
and the raw check-interval input line.  `none` models `log.Fatal` on an
invalid choice.  The initial interval is the fixed default 300; choosing a
loaded configuration replaces the whole record, including the interval. -/
def mainConfig (loaded : Option ConfigM) (choice : String)
    (prompted : List SearchConfigM) (intervalInput : String) : Option ConfigM :=
  let base : ConfigM := ⟨300, []⟩
  let step1 : Option ConfigM :=
    match loaded with
    | none => some base
    | some ec =>
      if choice = "1" then some ec
      else if choice = "2" then some ec
      else if choice = "3" then some base
      else none
  match step1 with
  | none => none
  | some cfg =>
    if cfg.Searches = [] then
      some { CheckInterval :=
               if intervalInput ≠ "" then
                 match goAtoiOpt intervalInput with
                 | some n => n
                 | none => cfg.CheckInterval
               else cfg.CheckInterval
             Searches := cfg.Searches ++ prompted }
    else some cfg

/-- The duration, in seconds, of the end-of-cycle
`time.Sleep(time.Duration(config.CheckInterval) * time.Second)`. -/
def sleepSeconds (cfg : ConfigM) : Int :=
  cfg.CheckInterval

/-- The loop body of `saveNewItems` from `main.go`: for each item in input
order, skip it if its URL is in the seen set, otherwise emit it and add its
URL to the seen set.  Returns the emitted items and the final seen set. -/
def saveLoop : List Item → List String → List Item × List String
  | [], seen => ([], seen)
  | item :: rest, seen =>
    if item.URL ∈ seen then saveLoop rest seen
    else
      ((item :: (saveLoop rest (item.URL :: seen)).1),
        (saveLoop rest (item.URL :: seen)).2)

/-- `saveNewItems` from `main.go`: if opening `findings.json` or the daily
log fails, return at once, emitting nothing and leaving the seen set
unchanged; otherwise run the deduplicating loop. -/
def saveNewItems (findingsOk dailyOk : Bool) (items : List Item)
    (seen : List String) : List Item × List String :=
  if findingsOk = false then ([], seen)
  else if dailyOk = false then ([], seen)
  else saveLoop items seen

/-- The lifetime of one search term's deduplication store: a sequence of
`saveNewItems` calls (each with its file-open outcomes and its batch),
threading the seen set; yields every emitted item in order. -/
def emitAll : List (Bool × Bool × List Item) → List String → List Item
  | [], _ => []
  | (f, d, items) :: rest, seen =>
    (saveNewItems f d items seen).1 ++ emitAll rest (saveNewItems f d items seen).2

/-- A sample concrete listing, used by witness theorems. -/
def itemX : Item :=
  { Title := "title", Price := "EUR 5", PriceValue := 5, URL := "u1",
    IsAuction := false, Watchers := 0, TimeLeft := "" }

/-- Any value successfully produced by the float parse of `parsePrice` is
non-negative: the parsed text contains only digits and dots, so the value is
a sum of a natural number and a non-negative fraction. -/
theorem goParseFloatClean_nonneg {cs : List Char} {q : ℚ}
    (h : goParseFloatClean cs = some q) : 0 ≤ q := by
  unfold goParseFloatClean at h
  split at h
  · rw [Option.some.injEq] at h
    subst h
    positivity
  · exact absurd h (by simp)

/-- Structure of `parseTimeLeft` on nonempty input: the compact pass yields
`daysOf`/`hoursOf`/`minsOf`, and the fallback runs exactly when all three
are zero. -/
theorem parseTimeLeft_eq (s : String) (hs : s ≠ "") :
    parseTimeLeft s =
      (if daysOf s = 0 ∧ hoursOf s = 0 ∧ minsOf s = 0 then
        some ⟨(fallbackDH s).1, (fallbackDH s).2, minsOf s⟩
      else some ⟨daysOf s, hoursOf s, minsOf s⟩) := by
  unfold parseTimeLeft daysOf hoursOf minsOf fallbackDH
  rw [if_neg hs]
  rfl

/-- The fallback token scan leaves days and hours unchanged when no token
carries a day or hour unit marker. -/
theorem fallbackLoop_quiet : ∀ (parts : List String) (prev : Option String) (d h : Int),
    (∀ p ∈ parts, goHasPrefix "T" p = false ∧ goHasPrefix "Std" p = false) →
    fallbackLoop parts prev d h = (d, h) := by
  intro parts
  induction parts with
  | nil => intro prev d h _; cases prev <;> rfl
  | cons p rest ih =>
    intro prev d h hq
    have hp := hq p (List.mem_cons_self _ _)
    have hrest : ∀ r ∈ rest, goHasPrefix "T" r = false ∧ goHasPrefix "Std" r = false :=
      fun r hr => hq r (List.mem_cons_of_mem _ hr)
    cases prev with
    | none => exact ih (some p) d h hrest
    | some q0 =>
      show fallbackLoop rest (some p)
        (if goHasPrefix "T" p then goAtoi q0 else d)
        (if goHasPrefix "Std" p then goAtoi q0 else h) = (d, h)
      rw [hp.1, hp.2]
      simp only [Bool.false_eq_true, if_false]
      exact ih (some p) d h hrest

/-- C1 counterexample: on the raw string `"EUR 1.234,56"` the program's
`parsePrice` returns the absent sentinel `-1`, not `1234.56`: the
comma-to-dot mapping leaves the thousands-separator dot in place, the
cleaned string `"1.234.56"` has two dots, and the float parse rejects it. -/
theorem c1_counterexample :
    parsePrice "EUR 1.234,56" = -1 ∧ parsePrice "EUR 1.234,56" ≠ (1234.56 : ℚ) := by
  have h : parsePrice "EUR 1.234,56" = -1 := by decide
  refine ⟨h, ?_⟩
  rw [h]
  norm_num

/-- C1 (amended): `parsePrice "EUR 1.234,56"` returns the absent sentinel
`-1`, because after stripping the prefix and whitespace and mapping commas
to dots the remainder `"1.234.56"` contains two decimal points and fails
the float parse; on the same price without the thousands separator,
`"EUR 1234,56"`, the described value `1234.56` is produced. -/
theorem c1_spec :
    parsePrice "EUR 1.234,56" = -1 ∧ parsePrice "EUR 1234,56" = (1234.56 : ℚ) := by
  constructor
  · decide
  · unfold parsePrice
    have hclean : (((trimSpace (goTrimPrefix "EUR" "EUR 1234,56").toList).map
        (fun c => if c = ',' then '.' else c)).filter
          (fun c => c.isDigit || c == '.')) = ['1', '2', '3', '4', '.', '5', '6'] := by decide
    rw [hclean]
    unfold goParseFloatClean
    rw [if_pos (by decide)]
    have e1 : digitsToNat (['1', '2', '3', '4', '.', '5', '6'].takeWhile
        (fun c => c != '.')) = 1234 := by decide
    have e2 : digitsToNat ((['1', '2', '3', '4', '.', '5', '6'].dropWhile
        (fun c => c != '.')).drop 1) = 56 := by decide
    have e3 : ((['1', '2', '3', '4', '.', '5', '6'].dropWhile
        (fun c => c != '.')).drop 1).length = 2 := by decide
    rw [e1, e2, e3]
    norm_num

/-- C5: a negative price (in particular the absent sentinel `-1`) always
fails the price-range check; a non-negative price passes iff it is at least
`MinPrice` whenever the lower bound is set (non-negative) and at most
`MaxPrice` whenever the upper bound is set. -/
theorem c5_spec : ∀ (s : Scraper) (price : ℚ),
    (price < 0 → s.isInPriceRange price = false) ∧
    (0 ≤ price → (s.isInPriceRange price = true ↔
      ((0 ≤ s.MinPrice → s.MinPrice ≤ price) ∧ (0 ≤ s.MaxPrice → price ≤ s.MaxPrice)))) := by
  intro s p
  constructor
  · intro h
    simp [Scraper.isInPriceRange, h]
  · intro h0
    unfold Scraper.isInPriceRange
    split_ifs with h1 h2 h3
    · exact absurd h1 (not_lt.mpr h0)
    · simp only [Bool.false_eq_true, false_iff]
      intro hP
      exact absurd (hP.1 h2.1) (not_le.mpr h2.2)
    · simp only [Bool.false_eq_true, false_iff]
      intro hP
      exact absurd (hP.2 h3.1) (not_le.mpr h3.2)
    · push_neg at h2 h3
      simp only [true_iff]
      exact ⟨h2, h3⟩

/-- C5 witness: the scraper with bounds 5..10 accepts the price 7. -/
theorem c5_spec_witness :
    Scraper.isInPriceRange ⟨5, 10, ListingType.All, none⟩ 7 = true :=
  ((c5_spec ⟨5, 10, ListingType.All, none⟩ 7).2 (by norm_num)).mpr
    ⟨fun _ => by norm_num, fun _ => by norm_num⟩

/-- C8: total minutes of a `TimeRange` are `days*1440 + hours*60 + minutes`,
and two `TimeRange`s are interchangeable in the time-range comparison used
by filtering (in either position: as the listing's time or as the ceiling)
iff their total minutes agree; in particular `{0,25,0}` and `{1,1,0}`
compare equal. -/
theorem c8_spec :
    (∀ tr : TimeRange, tr.toMinutes = tr.Days * 1440 + tr.Hours * 60 + tr.Minutes) ∧
    (∀ d1 d2 : TimeRange,
      d1.toMinutes = d2.toMinutes ↔
        ∀ (s : Scraper) (c : TimeRange),
          Scraper.isInTimeRange { s with MaxTimeLeft := some c } (some d1) =
              Scraper.isInTimeRange { s with MaxTimeLeft := some c } (some d2) ∧
            Scraper.isInTimeRange { s with MaxTimeLeft := some d1 } (some c) =
              Scraper.isInTimeRange { s with MaxTimeLeft := some d2 } (some c)) ∧
    TimeRange.toMinutes ⟨0, 25, 0⟩ = TimeRange.toMinutes ⟨1, 1, 0⟩ := by
  refine ⟨?_, ?_, by decide⟩
  · intro tr
    unfold TimeRange.toMinutes
    ring
  · intro d1 d2
    constructor
    · intro h s c
      simp [Scraper.isInTimeRange, h]
    · intro h
      obtain ⟨ha, _⟩ := h ⟨0, 0, ListingType.All, none⟩ d1
      obtain ⟨hb, _⟩ := h ⟨0, 0, ListingType.All, none⟩ d2
      simp only [Scraper.isInTimeRange, decide_eq_decide] at ha hb
      have h1 : d2.toMinutes ≤ d1.toMinutes := ha.mp le_rfl
      have h2 : d1.toMinutes ≤ d2.toMinutes := hb.mpr le_rfl
      omega

/-- The price fragment `"EUR 5"` parses to the exact value 5. -/
theorem parsePrice_eur5 : parsePrice "EUR 5" = 5 := by
  unfold parsePrice
  have hclean : (((trimSpace (goTrimPrefix "EUR" "EUR 5").toList).map
      (fun c => if c = ',' then '.' else c)).filter
        (fun c => c.isDigit || c == '.')) = ['5'] := by decide
  rw [hclean]
  unfold goParseFloatClean
  rw [if_pos (by decide)]
  have e1 : digitsToNat (['5'].takeWhile (fun c => c != '.')) = 5 := by decide
  have e2 : digitsToNat ((['5'].dropWhile (fun c => c != '.')).drop 1) = 0 := by decide
  have e3 : ((['5'].dropWhile (fun c => c != '.')).drop 1).length = 0 := by decide
  rw [e1, e2, e3]
  norm_num

/-- C2 counterexample: with criteria `{type: Any, maxTimeRemaining: {0,1,0}}`
and a fixed-price block (empty time-remaining, empty bids) carrying a valid
title, price and url, the `Scrape` filter excludes the listing, and the only
failing check is the time-range check — even though the listing-type filter
is not AuctionOnly (the code's own `shouldCheckTime` is false here, but
`Scrape` never consults it). -/
theorem c2_counterexample :
    Scraper.admits ⟨-1, -1, ListingType.All, some ⟨0, 1, 0⟩⟩
        ⟨"Widget", "EUR 5", "u", "", "", ""⟩ = false ∧
    isValidItem (cleanTitle "Widget") "EUR 5" "u" = true ∧
    Scraper.isInPriceRange ⟨-1, -1, ListingType.All, some ⟨0, 1, 0⟩⟩
        (parsePrice "EUR 5") = true ∧
    Scraper.shouldIncludeItem ⟨-1, -1, ListingType.All, some ⟨0, 1, 0⟩⟩
        (mkItem ⟨"Widget", "EUR 5", "u", "", "", ""⟩) = true ∧
    Scraper.isInTimeRange ⟨-1, -1, ListingType.All, some ⟨0, 1, 0⟩⟩
        (parseTimeLeft "") = false ∧
    Scraper.shouldCheckTime ⟨-1, -1, ListingType.All, some ⟨0, 1, 0⟩⟩ = false := by
  have ht : Scraper.isInTimeRange ⟨-1, -1, ListingType.All, some ⟨0, 1, 0⟩⟩
      (parseTimeLeft "") = false := by decide
  have hp : Scraper.isInPriceRange ⟨-1, -1, ListingType.All, some ⟨0, 1, 0⟩⟩
      (parsePrice "EUR 5") = true := by
    rw [parsePrice_eur5]
    decide
  refine ⟨?_, by decide, hp, by decide, ht, by decide⟩
  show (isValidItem (cleanTitle "Widget") "EUR 5" "u" &&
      Scraper.isInPriceRange ⟨-1, -1, ListingType.All, some ⟨0, 1, 0⟩⟩ (parsePrice "EUR 5") &&
      Scraper.shouldIncludeItem ⟨-1, -1, ListingType.All, some ⟨0, 1, 0⟩⟩
        (mkItem ⟨"Widget", "EUR 5", "u", "", "", ""⟩) &&
      Scraper.isInTimeRange ⟨-1, -1, ListingType.All, some ⟨0, 1, 0⟩⟩
        (parseTimeLeft "")) = false
  rw [ht, Bool.and_false]

/-- C2 (amended): the time-range check inside `Scrape` is evaluated whenever
`MaxTimeLeft` is bounded, regardless of the listing-type filter (the check
is entirely independent of `ListingType`; `shouldCheckTime` exists but is
never called by `Scrape`): when the ceiling is unbounded the check passes
for every listing; when it is bounded the check passes exactly for a
present parsed time within the ceiling, and every admitted block passed the
check. -/
theorem c2_spec :
    (∀ (s : Scraper) (tl : Option TimeRange) (lt : ListingType),
      Scraper.isInTimeRange { s with ListingType := lt } tl = s.isInTimeRange tl) ∧
    (∀ (s : Scraper) (tl : Option TimeRange), s.MaxTimeLeft = none →
      s.isInTimeRange tl = true) ∧
    (∀ (s : Scraper) (m : TimeRange) (tl : Option TimeRange), s.MaxTimeLeft = some m →
      (s.isInTimeRange tl = true ↔ ∃ t, tl = some t ∧ t.toMinutes ≤ m.toMinutes)) ∧
    (∀ (s : Scraper) (b : Block), s.admits b = true →
      s.isInTimeRange (parseTimeLeft b.timeLeft) = true) := by
  refine ⟨?_, ?_, ?_, ?_⟩
  · intro s tl lt
    rfl
  · intro s tl h
    simp [Scraper.isInTimeRange, h]
  · intro s m tl h
    cases tl with
    | none => simp [Scraper.isInTimeRange, h]
    | some t => simp [Scraper.isInTimeRange, h]
  · intro s b h
    unfold Scraper.admits at h
    simp only [Bool.and_eq_true] at h
    exact h.2

/-- C2 witness: an unbounded ceiling passes an absent time. -/
theorem c2_spec_witness :
    Scraper.isInTimeRange ⟨-1, -1, ListingType.All, none⟩ none = true :=
  c2_spec.2.1 ⟨-1, -1, ListingType.All, none⟩ none rfl

/-- C3 counterexample: on `"0Std 2 Tage"` the hours compact pattern matches
(with count 0), so by the claim the fallback must not run and the result
would be `{0,0,0}` (as `parseTimeLeftSpec`, the claim-following variant,
computes); but the program's `parseTimeLeft` does run the fallback and
returns `{2,0,0}`. -/
theorem c3_counterexample :
    parseTimeLeft "0Std 2 Tage" = some ⟨2, 0, 0⟩ ∧
    parseTimeLeftSpec "0Std 2 Tage" = some ⟨0, 0, 0⟩ ∧
    findCompact ['S', 't', 'd'] false "0Std 2 Tage".toList ≠ none := by
  refine ⟨by decide, by decide, by decide⟩

/-- C3 (amended): the whitespace-token fallback of `parseTimeLeft` is
entered if and only if all three values extracted by the compact patterns
are zero — i.e. each pattern either fails to match or matches the count 0 —
not if and only if all three patterns fail to match; when any extracted
value is nonzero the compact triple is returned unchanged. -/
theorem c3_spec : ∀ s : String, s ≠ "" →
    (¬(daysOf s = 0 ∧ hoursOf s = 0 ∧ minsOf s = 0) →
      parseTimeLeft s = some ⟨daysOf s, hoursOf s, minsOf s⟩) ∧
    ((daysOf s = 0 ∧ hoursOf s = 0 ∧ minsOf s = 0) →
      parseTimeLeft s = some ⟨(fallbackDH s).1, (fallbackDH s).2, minsOf s⟩) := by
  intro s hs
  rw [parseTimeLeft_eq s hs]
  constructor
  · intro h
    rw [if_neg h]
  · intro h
    rw [if_pos h]

/-- C3 witness: `"5T"` has a nonzero compact days match, so the compact
triple is returned. -/
theorem c3_spec_witness :
    ("5T" : String) ≠ "" ∧ parseTimeLeft "5T" = some ⟨5, 0, 0⟩ := by
  refine ⟨by decide, ?_⟩
  have h := (c3_spec "5T" (by decide)).1 (by decide)
  rw [h]
  decide

/-- C4 counterexample: a loaded configuration whose check interval is zero
(the JSON zero value of an unset field) is adopted unchanged by choice "1",
and the end-of-cycle sleep is then zero seconds — not positive, and no
fallback applies. -/
theorem c4_counterexample :
    mainConfig (some ⟨0, [⟨"q"⟩]⟩) "1" [] "" = some ⟨0, [⟨"q"⟩]⟩ ∧
    ¬(0 < sleepSeconds ⟨0, [⟨"q"⟩]⟩) := by
  refine ⟨by decide, by decide⟩

/-- C4 (amended): the fixed default of 300 seconds applies only when no
configuration is loaded (and the interval prompt is left empty); a loaded
configuration chosen with "1" and a nonempty search list is used as-is,
check interval included — zero or unset yields a zero-length sleep, with no
fallback at the sleep site. -/
theorem c4_spec :
    (∀ (choice : String) (prompted : List SearchConfigM),
      mainConfig none choice prompted "" = some ⟨300, prompted⟩) ∧
    (∀ (ec : ConfigM) (prompted : List SearchConfigM), ec.Searches ≠ [] →
      mainConfig (some ec) "1" prompted "" = some ec) := by
  constructor
  · intro choice prompted
    simp [mainConfig]
  · intro ec prompted h
    simp [mainConfig, h]

/-- C4 witness: a loaded nonempty configuration with interval 7 is kept. -/
theorem c4_spec_witness :
    mainConfig (some ⟨7, [⟨"q"⟩]⟩) "1" [] "" = some ⟨7, [⟨"q"⟩]⟩ :=
  c4_spec.2 ⟨7, [⟨"q"⟩]⟩ [] (by decide)

/-- C6: `parseTimeLeft` returns the absent value exactly for the empty
string; every non-empty input yields a `TimeRange` (never absent, never an
error), and a non-empty input matched by none of the recognized formats —
no compact pattern matches and no whitespace token beyond the first starts
with a day or hour unit marker — yields the defined default `{0,0,0}`. -/
theorem c6_spec :
    parseTimeLeft "" = none ∧
    (∀ s : String, s ≠ "" → (parseTimeLeft s).isSome = true) ∧
    (∀ s : String, s ≠ "" →
      findCompact ['T'] false s.toList = none →
      findCompact ['S', 't', 'd'] false s.toList = none →
      findCompact ['M', 'i', 'n'] true s.toList = none →
      (∀ p ∈ (goFields s).drop 1,
        goHasPrefix "T" p = false ∧ goHasPrefix "Std" p = false) →
      parseTimeLeft s = some ⟨0, 0, 0⟩) := by
  refine ⟨rfl, ?_, ?_⟩
  · intro s h
    rw [parseTimeLeft_eq s h]
    split <;> rfl
  · intro s h hd hh hm hq
    have d0 : daysOf s = 0 := by unfold daysOf; rw [hd]
    have h0 : hoursOf s = 0 := by unfold hoursOf; rw [hh]
    have m0 : minsOf s = 0 := by unfold minsOf; rw [hm]
    rw [parseTimeLeft_eq s h, if_pos ⟨d0, h0, m0⟩]
    have hfb : fallbackDH s = (0, 0) := by
      unfold fallbackDH
      rw [d0, h0]
      cases hgf : goFields s with
      | nil => rfl
      | cons p rest =>
        show fallbackLoop rest (some p) 0 0 = (0, 0)
        apply fallbackLoop_quiet
        intro q hq2
        have hdrop : rest = (goFields s).drop 1 := by rw [hgf]; rfl
        exact hq q (hdrop ▸ hq2)
    rw [hfb, m0]

/-- C6 witness: `"abc"` matches no recognized format and degrades to the
all-zero duration, while the empty string is absent. -/
theorem c6_spec_witness :
    parseTimeLeft "abc" = some ⟨0, 0, 0⟩ ∧ parseTimeLeft "" = none := by
  refine ⟨?_, c6_spec.1⟩
  exact c6_spec.2.2 "abc" (by decide) (by decide) (by decide) (by decide) (by decide)

/-- C9: `parsePrice` returns either the absent sentinel `-1` or a
non-negative value, never a negative successfully-parsed price, so the
negativity test of the price-range check detects exactly the absent case. -/
theorem c9_spec : ∀ s : String, parsePrice s = -1 ∨ 0 ≤ parsePrice s := by
  intro s
  unfold parsePrice
  generalize hgen : goParseFloatClean _ = r
  cases r with
  | none => exact Or.inl rfl
  | some q => exact Or.inr (goParseFloatClean_nonneg hgen)

/-- Every url in the seen set stays in the seen set across the save loop. -/
theorem saveLoop_seen_mono : ∀ (items : List Item) (seen : List String) (u : String),
    u ∈ seen → u ∈ (saveLoop items seen).2 := by
  intro items
  induction items with
  | nil => intro seen u hu; simpa [saveLoop] using hu
  | cons a rest ih =>
    intro seen u hu
    simp only [saveLoop]
    by_cases ha : a.URL ∈ seen
    · rw [if_pos ha]
      exact ih seen u hu
    · rw [if_neg ha]
      exact ih (a.URL :: seen) u (List.mem_cons_of_mem _ hu)

/-- No item emitted by the save loop has a url that was already seen. -/
theorem saveLoop_fresh : ∀ (items : List Item) (seen : List String),
    ∀ it ∈ (saveLoop items seen).1, it.URL ∉ seen := by
  intro items
  induction items with
  | nil => intro seen it h; simp [saveLoop] at h
  | cons a rest ih =>
    intro seen it h
    simp only [saveLoop] at h
    by_cases ha : a.URL ∈ seen
    · rw [if_pos ha] at h
      exact ih seen it h
    · rw [if_neg ha] at h
      rcases List.mem_cons.mp h with h1 | h2
      · subst h1
        exact ha
      · have h3 := ih (a.URL :: seen) it h2
        intro hc
        exact h3 (List.mem_cons_of_mem _ hc)

/-- Every emitted item's url is recorded in the final seen set. -/
theorem saveLoop_out_in_final : ∀ (items : List Item) (seen : List String),
    ∀ it ∈ (saveLoop items seen).1, it.URL ∈ (saveLoop items seen).2 := by
  intro items
  induction items with
  | nil => intro seen it h; simp [saveLoop] at h
  | cons a rest ih =>
    intro seen it h
    simp only [saveLoop] at h ⊢
    by_cases ha : a.URL ∈ seen
    · rw [if_pos ha] at h ⊢
      exact ih seen it h
    · rw [if_neg ha] at h ⊢
      rcases List.mem_cons.mp h with h1 | h2
      · subst h1
        exact saveLoop_seen_mono rest _ _ (List.mem_cons_self _ _)
      · exact ih _ it h2

/-- The urls emitted by one save loop are pairwise distinct. -/
theorem saveLoop_nodup : ∀ (items : List Item) (seen : List String),
    ((saveLoop items seen).1.map Item.URL).Nodup := by
  intro items
  induction items with
  | nil => intro seen; simp [saveLoop]
  | cons a rest ih =>
    intro seen
    simp only [saveLoop]
    by_cases ha : a.URL ∈ seen
    · rw [if_pos ha]
      exact ih seen
    · rw [if_neg ha]
      simp only [List.map_cons, List.nodup_cons]
      refine ⟨?_, ih _⟩
      intro hmem
      rcases List.mem_map.mp hmem with ⟨it, hit, hurl⟩
      have h3 := saveLoop_fresh rest (a.URL :: seen) it hit
      exact h3 (by rw [hurl]; exact List.mem_cons_self _ _)

/-- The save loop emits a subsequence of its input (input order kept). -/
theorem saveLoop_sublist : ∀ (items : List Item) (seen : List String),
    (saveLoop items seen).1.Sublist items := by
  intro items
  induction items with
  | nil => intro seen; simp [saveLoop]
  | cons a rest ih =>
    intro seen
    simp only [saveLoop]
    by_cases ha : a.URL ∈ seen
    · rw [if_pos ha]
      exact (ih seen).cons a
    · rw [if_neg ha]
      exact (ih _).cons₂ a

/-- `saveLoop` facts lifted over `saveNewItems`'s file-open guard:
monotonicity of the seen set. -/
theorem saveNewItems_seen_mono (f d : Bool) (items : List Item) (seen : List String)
    (u : String) (hu : u ∈ seen) : u ∈ (saveNewItems f d items seen).2 := by
  unfold saveNewItems
  split_ifs with h1 h2
  · exact hu
  · exact hu
  · exact saveLoop_seen_mono items seen u hu

/-- `saveLoop` facts lifted over `saveNewItems`'s file-open guard:
freshness of the emitted items. -/
theorem saveNewItems_fresh (f d : Bool) (items : List Item) (seen : List String) :
    ∀ it ∈ (saveNewItems f d items seen).1, it.URL ∉ seen := by
  unfold saveNewItems
  split_ifs with h1 h2 <;> intro it hit
  · simp at hit
  · simp at hit
  · exact saveLoop_fresh items seen it hit

/-- `saveLoop` facts lifted over `saveNewItems`'s file-open guard: emitted
urls end up recorded. -/
theorem saveNewItems_out_in_final (f d : Bool) (items : List Item) (seen : List String) :
    ∀ it ∈ (saveNewItems f d items seen).1, it.URL ∈ (saveNewItems f d items seen).2 := by
  unfold saveNewItems
  split_ifs with h1 h2 <;> intro it hit
  · simp at hit
  · simp at hit
  · exact saveLoop_out_in_final items seen it hit

/-- `saveLoop` facts lifted over `saveNewItems`'s file-open guard: distinct
urls within one call's output. -/
theorem saveNewItems_nodup (f d : Bool) (items : List Item) (seen : List String) :
    ((saveNewItems f d items seen).1.map Item.URL).Nodup := by
  unfold saveNewItems
  split_ifs with h1 h2
  · simp
  · simp
  · exact saveLoop_nodup items seen

/-- `saveLoop` facts lifted over `saveNewItems`'s file-open guard: output is
a subsequence of the input. -/
theorem saveNewItems_sublist (f d : Bool) (items : List Item) (seen : List String) :
    (saveNewItems f d items seen).1.Sublist items := by
  unfold saveNewItems
  split_ifs with h1 h2
  · exact List.nil_sublist items
  · exact List.nil_sublist items
  · exact saveLoop_sublist items seen

/-- Nothing emitted over a store's remaining lifetime has a url already in
the seen set at the start of that lifetime. -/
theorem emitAll_fresh : ∀ (cycles : List (Bool × Bool × List Item)) (seen : List String),
    ∀ it ∈ emitAll cycles seen, it.URL ∉ seen := by
  intro cycles
  induction cycles with
  | nil => intro seen it h; simp [emitAll] at h
  | cons c rest ih =>
    intro seen it h
    obtain ⟨f, d, items⟩ := c
    simp only [emitAll] at h
    rcases List.mem_append.mp h with h1 | h2
    · exact saveNewItems_fresh f d items seen it h1
    · intro hc
      exact ih _ it h2 (saveNewItems_seen_mono f d items seen it.URL hc)

/-- Across a store's whole lifetime, the emitted urls are pairwise
distinct. -/
theorem emitAll_nodup : ∀ (cycles : List (Bool × Bool × List Item)) (seen : List String),
    ((emitAll cycles seen).map Item.URL).Nodup := by
  intro cycles
  induction cycles with
  | nil => intro seen; simp [emitAll]
  | cons c rest ih =>
    intro seen
    obtain ⟨f, d, items⟩ := c
    simp only [emitAll, List.map_append]
    refine List.Nodup.append (saveNewItems_nodup f d items seen) (ih _) ?_
    intro u hu1 hu2
    rcases List.mem_map.mp hu1 with ⟨it1, hit1, he1⟩
    rcases List.mem_map.mp hu2 with ⟨it2, hit2, he2⟩
    have hin : u ∈ (saveNewItems f d items seen).2 := by
      rw [← he1]
      exact saveNewItems_out_in_final f d items seen it1 hit1
    have hout := emitAll_fresh rest (saveNewItems f d items seen).2 it2 hit2
    rw [he2] at hout
    exact hout hin

/-- C7: over the whole lifetime of one search term's deduplication store —
any sequence of `saveNewItems` calls starting from the empty store — every
listing url appears in the combined outputs at most once; moreover each
call emits, in input order (a subsequence of its input), only listings
whose url was not yet recorded. -/
theorem c7_spec :
    (∀ cycles : List (Bool × Bool × List Item),
      ((emitAll cycles []).map Item.URL).Nodup) ∧
    (∀ (f d : Bool) (items : List Item) (seen : List String),
      (saveNewItems f d items seen).1.Sublist items ∧
      ∀ it ∈ (saveNewItems f d items seen).1, it.URL ∉ seen) :=
  ⟨fun cycles => emitAll_nodup cycles [],
    fun f d items seen =>
      ⟨saveNewItems_sublist f d items seen, saveNewItems_fresh f d items seen⟩⟩

/-- C7 witness: a batch containing the same listing twice emits it once,
and a listing with url already seen is not re-emitted. -/
theorem c7_spec_witness :
    ((emitAll [(true, true, [itemX, itemX])] []).map Item.URL).Nodup ∧
    itemX.URL ∉ (["a"] : List String) := by
  refine ⟨c7_spec.1 [(true, true, [itemX, itemX])], ?_⟩
  exact (c7_spec.2 true true [itemX] ["a"]).2 itemX (by decide)

/-- C10: if opening the findings file or the daily log fails, `saveNewItems`
emits nothing and leaves the deduplication state unchanged, so the whole
batch stays eligible for a later cycle. -/
theorem c10_spec : ∀ (f d : Bool) (items : List Item) (seen : List String),
    f = false ∨ d = false → saveNewItems f d items seen = ([], seen) := by
  intro f d items seen h
  unfold saveNewItems
  split_ifs with h1 h2
  · rfl
  · rfl
  · rcases h with h | h
    · exact absurd h h1
    · exact absurd h h2

/-- C10 witness: a failed findings-file open changes nothing. -/
theorem c10_spec_witness : saveNewItems false true [itemX] ["s"] = ([], ["s"]) :=
  c10_spec false true [itemX] ["s"] (Or.inl rfl)

end BayCheck
